import Mathlib

/-!
Verification of the Wand backend (Python sources under `src/backend`).

The development shallowly embeds the parts of the code the claims are
about:

* the incremental tag-stream classifier of `cli.py` (`main`, lines 70-264),
* the agent loop of `llm_processor.py` (`LLMProcessor.process`),
* the tool registry of `tools.py` (`execute_tool`, `get_tools_definitions`),
* the tool synthesizer `create_tool` and the file editor `edit_file`.

Python strings are modelled as `List Char`; Python's `str.split(pat, 1)`
becomes `splitOnFirst`, `str.strip()` becomes `pyStrip`, `str.count`
becomes `pyCount`, and so on.  External collaborators (the LLM endpoint,
`json.loads`, the Python `compile`/`exec` sandbox) are parameters of the
embedded functions.
-/

/-- Python strings are modelled as lists of characters. -/
abbrev Str := List Char

/-- Coerce a Lean string literal to the model type. -/
def str (s : String) : Str := s.data

/-- Python's notion of whitespace for `str.strip` / `\s`. -/
def pyIsSpace (c : Char) : Bool :=
  c = ' ' || c = '\t' || c = '\n' || c = '\r' || c = '\x0B' || c = '\x0C'

/-- Drop trailing Python whitespace. -/
def pyDropEnd (s : Str) : Str := (s.reverse.dropWhile pyIsSpace).reverse

/-- Python `str.strip()`. -/
def pyStrip (s : Str) : Str := pyDropEnd (s.dropWhile pyIsSpace)

/-- Does `pat` stand at the front of `s`?  (Python `str.startswith`.) -/
def leadsWith : Str → Str → Bool
  | [], _ => true
  | _ :: _, [] => false
  | a :: as, b :: bs => a = b && leadsWith as bs

/-- Split `s` at the first occurrence of `pat`: Python
`s.split(pat, 1)` preceded by the `pat in s` test.  Returns the text
before the first occurrence and the text after it. -/
def splitOnFirst (pat : Str) : Str → Option (Str × Str)
  | [] => if leadsWith pat [] then some ([], []) else none
  | c :: rest =>
    if leadsWith pat (c :: rest) then some ([], (c :: rest).drop pat.length)
    else (splitOnFirst pat rest).map (fun p => (c :: p.1, p.2))

/-- Python `pat in s`. -/
def hasSub (pat s : Str) : Bool := (splitOnFirst pat s).isSome

/-- Index of the last occurrence of character `c` in `s`
(Python `s.rfind(c)`, with `none` for `-1`). -/
def rfindIdx (c : Char) : Str → Option Nat
  | [] => none
  | a :: rest =>
    match rfindIdx c rest with
    | some i => some (i + 1)
    | none => if a = c then some 0 else none

/-- `max` of two Python `rfind` results, where `none` plays `-1`. -/
def maxOpt : Option Nat → Option Nat → Option Nat
  | none, none => none
  | some i, none => some i
  | none, some j => some j
  | some i, some j => some (max i j)

/-- Python `s.split('\n')` (keeps empty pieces, always non-empty). -/
def splitLines : Str → List Str
  | [] => [[]]
  | c :: rest =>
    if c = '\n' then [] :: splitLines rest
    else
      match splitLines rest with
      | l :: ls => (c :: l) :: ls
      | [] => [[c]]

/-- Fuelled engine for `pyReplaceAll`; one unit of fuel per occurrence. -/
def pyReplaceAllF : Nat → Str → Str → Str → Str
  | 0, _, _, s => s
  | f + 1, pat, new, s =>
    match splitOnFirst pat s with
    | none => s
    | some (pre, post) => pre ++ new ++ pyReplaceAllF f pat new post

/-- Python `s.replace(pat, new)` for a non-empty `pat`.  `s.length + 1`
units of fuel always suffice because every occurrence consumes at least
one character of `s`. -/
def pyReplaceAll (pat new s : Str) : Str := pyReplaceAllF (s.length + 1) pat new s

/-- Python `s.replace(pat, new, 1)`. -/
def pyReplaceFirst (pat new s : Str) : Str :=
  match splitOnFirst pat s with
  | none => s
  | some (pre, post) => pre ++ new ++ post

/-- Fuelled engine for `pyCount`. -/
def pyCountF : Nat → Str → Str → Nat
  | 0, _, _ => 0
  | f + 1, pat, s =>
    match splitOnFirst pat s with
    | none => 0
    | some (_, post) => 1 + pyCountF f pat post

/-- Python `s.count(pat)`: non-overlapping occurrence count. -/
def pyCount (pat s : Str) : Nat :=
  if pat = [] then s.length + 1 else pyCountF (s.length + 1) pat s

-- A quick sanity check of the utilities.
example : pyStrip (str "  ab \n") = str "ab" := by decide
example : splitOnFirst (str "bc") (str "abcd") = some (str "a", str "d") := by decide
example : rfindIdx '<' (str "a<b<c") = some 3 := by decide
example : splitLines (str "a\n\nb") = [str "a", [], str "b"] := by decide
example : pyCount (str "aa") (str "aaa") = 1 := by decide

/-! ## The tag-stream classifier of `cli.py` (`main`, lines 70-264)

Each `print_chunk` call site of the Python loop is mapped to a typed
output fragment: the decorative HTML headers and footers printed when a
thinking or code region opens or closes become the marker fragments
`thinkStart`/`thinkEnd`/`codeStart`/`codeEnd`, and the content prints
become `text`/`codeDelta` fragments carrying the printed payload. -/

/-- The classifier states of `cli.py` (`state` variable, line 72). -/
inductive Mode
  | normal
  | thinking
  | action
  | checkingCode
  | executing
deriving DecidableEq, Repr

/-- One emitted fragment (one `print_chunk` call). -/
inductive Frag
  | text (s : Str)
  | thinkStart
  | thinkEnd
  | codeStart
  | codeEnd
  | codeDelta (s : Str)
deriving DecidableEq, Repr

/-- `if pre: print_chunk(pre)` — emit a text fragment only when non-empty. -/
def textIf (s : Str) : List Frag := if s = [] then [] else [.text s]

def thinkOpen : Str := str "<thinking>"
def thinkClose : Str := str "</thinking>"
def actionOpen : Str := str "<action>"
def actionClose : Str := str "</action>"
def fenceOpen : Str := str "```python:interpreter"
def ticks : Str := str "```"

/-- Line check of `cli.py` lines 211/236:
`line.strip() and not line.strip().startswith('#')`. -/
def lineIsRealCode (l : Str) : Bool :=
  pyStrip l ≠ [] && !(leadsWith (str "#") (pyStrip l))

/-- `cli.py` lines 233-238: does the buffered code contain a
non-blank, non-comment line? -/
def hasRealCode (s : Str) : Bool := (splitLines s).any lineIsRealCode

/-- `cli.py` lines 206-213: `is_effectively_empty` for a closed block. -/
def isEffEmpty (s : Str) : Bool :=
  if pyStrip s ≠ [] then !(hasRealCode s) else true

/-- One run of the `while True:` loop body of `cli.py` (lines 84-260),
processing the current buffer until a `break`.  Arguments: fuel, state,
`buffer`, `code_buffer`.  Returns the emitted fragments and the state,
`buffer` and `code_buffer` left at the `break`.  The fuel only bounds the
number of `continue` iterations; `classify` supplies more fuel than the
loop can consume, since every two consecutive iterations shorten the
buffer by at least one character. -/
def runBufF : Nat → Mode → Str → Str → (List Frag × Mode × Str × Str)
  | 0, m, b, cb => ([], m, b, cb)
  | f + 1, m, b, cb =>
    match m with
    | .normal =>
      match splitOnFirst thinkOpen b with
      | some (pre, post) =>
        let r := runBufF f .thinking post cb
        (textIf pre ++ [.thinkStart] ++ r.1, r.2)
      | none =>
        match splitOnFirst actionOpen b with
        | some (pre, post) =>
          let r := runBufF f .action post cb
          (textIf pre ++ r.1, r.2)
        | none =>
          match splitOnFirst fenceOpen b with
          | some (pre, post) =>
            let r := runBufF f .checkingCode post []
            (textIf pre ++ r.1, r.2)
          | none =>
            if b.length > 20 ∧ '<' ∉ b then ([.text b], .normal, [], cb)
            else if b.length > 100 then ([.text b], .normal, [], cb)
            else ([], .normal, b, cb)
    | .thinking =>
      match splitOnFirst thinkClose b with
      | some (pre, post) =>
        let r := runBufF f .normal post cb
        (textIf pre ++ [.thinkEnd] ++ r.1, r.2)
      | none =>
        match splitOnFirst actionOpen b with
        | some (pre, post) =>
          let r := runBufF f .action post cb
          (textIf pre ++ [.thinkEnd] ++ r.1, r.2)
        | none =>
          match splitOnFirst ticks b with
          | some (pre, post) =>
            let r := runBufF f .normal (ticks ++ post) cb
            (textIf pre ++ [.thinkEnd] ++ r.1, r.2)
          | none =>
            match rfindIdx '<' b with
            | some i =>
              if b.length - i < 20 then (textIf (b.take i), .thinking, b.drop i, cb)
              else ([.text b], .thinking, [], cb)
            | none => ([.text b], .thinking, [], cb)
    | .action =>
      match splitOnFirst fenceOpen b with
      | some (pre, post) =>
        let r := runBufF f .checkingCode post []
        (textIf pre ++ r.1, r.2)
      | none =>
        match splitOnFirst actionClose b with
        | some (pre, post) =>
          let r := runBufF f .normal post cb
          ((if pre ≠ [] ∧ pyStrip pre ≠ str "[]" ∧ pyStrip pre ≠ str "`[]`"
            then [.text pre] else []) ++ r.1, r.2)
        | none =>
          match maxOpt (rfindIdx '<' b) (rfindIdx '`' b) with
          | some i =>
            if b.length - i < 25 then (textIf (b.take i), .action, b.drop i, cb)
            else ([.text b], .action, [], cb)
          | none => ([.text b], .action, [], cb)
    | .checkingCode =>
      match splitOnFirst ticks b with
      | some (codeContent, remaining) =>
        let full := cb ++ codeContent
        let r := runBufF f .action remaining []
        ((if !(isEffEmpty full)
          then [.codeStart, .codeDelta full, .codeEnd] else []) ++ r.1, r.2)
      | none =>
        let cb' := cb ++ b
        if hasRealCode cb' then
          let r := runBufF f .executing [] []
          ([.codeStart, .codeDelta cb'] ++ r.1, r.2)
        else ([], .checkingCode, [], cb')
    | .executing =>
      match splitOnFirst ticks b with
      | some (pre, post) =>
        let r := runBufF f .action post cb
        (textIf pre ++ [.codeEnd] ++ r.1, r.2)
      | none => ([.codeDelta b], .executing, [], cb)

/-- Classifier state between chunks. -/
structure CState where
  mode : Mode
  buffer : Str
  codeBuffer : Str
deriving DecidableEq, Repr

def initCState : CState := ⟨.normal, [], []⟩

/-- Fuel that always suffices for one buffer run (see `runBufF`). -/
def fuelFor (b : Str) : Nat := b.length * 2 + 8

/-- Feed one streamed delta to the classifier (`buffer += content`
followed by the `while True:` loop); empty deltas are skipped
(`if not content: continue`). -/
def feedChunk (st : CState) (content : Str) : CState × List Frag :=
  if content = [] then (st, [])
  else
    let b := st.buffer ++ content
    let r := runBufF (fuelFor b) st.mode b st.codeBuffer
    (⟨r.2.1, r.2.2.1, r.2.2.2⟩, r.1)

/-- Feed a list of deltas in order. -/
def feedAll : CState → List Str → CState × List Frag
  | st, [] => (st, [])
  | st, c :: cs =>
    let r := feedChunk st c
    let r' := feedAll r.1 cs
    (r'.1, r.2 ++ r'.2)

/-- The whole stream run of `cli.py`: all deltas, then the final
`if buffer: print_chunk(buffer)` flush (lines 262-264). -/
def classify (chunks : List Str) : List Frag :=
  let r := feedAll initCState chunks
  r.2 ++ textIf r.1.buffer

/-- Concatenation, in order, of the plain-text and code payloads of a
fragment stream (marker fragments contribute nothing). -/
def emittedPayload (fs : List Frag) : Str :=
  fs.foldr (fun f acc =>
    match f with
    | .text s => s ++ acc
    | .codeDelta s => s ++ acc
    | _ => acc) []

-- C2 scenario sanity check.
example :
    classify [str "Hello <thi", str "nking>plan", str "</thinking> world"] =
      [.text (str "Hello "), .thinkStart, .text (str "plan"), .thinkEnd,
       .text (str " world")] := by decide

/-! ### Positioning lemmas for `splitOnFirst` -/

theorem leadsWith_self_append (pat rest : Str) : leadsWith pat (pat ++ rest) = true := by
  induction pat with
  | nil => rfl
  | cons a as ih => simp [leadsWith, ih]

theorem splitOnFirst_nil_of_ne (pat : Str) (h : pat ≠ []) : splitOnFirst pat [] = none := by
  cases pat with
  | nil => exact absurd rfl h
  | cons a as => simp [splitOnFirst, leadsWith]

theorem splitOnFirst_none_of_head_notMem (c : Char) (pat s : Str)
    (hh : pat.head? = some c) (hs : c ∉ s) : splitOnFirst pat s = none := by
  induction s with
  | nil =>
    cases pat with
    | nil => simp at hh
    | cons a as => simp [splitOnFirst, leadsWith]
  | cons a rest ih =>
    cases pat with
    | nil => simp at hh
    | cons p ps =>
      have hpc : p = c := by simpa using hh
      have hpa : ¬ (p = a) := fun h => hs (by simp [← h, hpc])
      have hrest : c ∉ rest := fun h => hs (List.mem_cons_of_mem a h)
      simp [splitOnFirst, leadsWith, hpa, ih hrest]

theorem splitOnFirst_marker (c : Char) (pat p rest : Str)
    (hh : pat.head? = some c) (hp : c ∉ p) :
    splitOnFirst pat (p ++ (pat ++ rest)) = some (p, rest) := by
  induction p with
  | nil =>
    cases pat with
    | nil => simp at hh
    | cons q qs =>
      simp only [List.nil_append]
      have hl : leadsWith (q :: qs) ((q :: qs) ++ rest) = true :=
        leadsWith_self_append (q :: qs) rest
      simp only [List.cons_append] at hl
      simp [splitOnFirst, hl, List.drop_left]
  | cons a p' ih =>
    cases pat with
    | nil => simp at hh
    | cons q qs =>
      have hqc : q = c := by simpa using hh
      have hqa : ¬ (q = a) := fun h => hp (by simp [← h, hqc])
      have hp' : c ∉ p' := fun h => hp (List.mem_cons_of_mem a h)
      simp [splitOnFirst, leadsWith, hqa]
      simpa using ih hp' 

/-! ### Chunk-boundary invariance on marker-free text -/

theorem thinkOpen_head : thinkOpen.head? = some '<' := by decide
theorem actionOpen_head : actionOpen.head? = some '<' := by decide
theorem thinkClose_head : thinkClose.head? = some '<' := by decide
theorem actionClose_head : actionClose.head? = some '<' := by decide
theorem fenceOpen_head : fenceOpen.head? = some '`' := by decide
theorem ticks_head : ticks.head? = some '`' := by decide

theorem emittedPayload_append (xs ys : List Frag) :
    emittedPayload (xs ++ ys) = emittedPayload xs ++ emittedPayload ys := by
  induction xs with
  | nil => rfl
  | cons x xs ih =>
    cases x <;> simp [emittedPayload, List.foldr] at ih ⊢ <;> simp [ih]

theorem emittedPayload_textIf (s : Str) : emittedPayload (textIf s) = s := by
  by_cases h : s = [] <;> simp [textIf, h, emittedPayload]

/-- In the NORMAL state a buffer free of marker characters is either
flushed whole or kept whole. -/
theorem runBufF_normal_clean (f : Nat) (hf : f ≠ 0) (b cb : Str)
    (h1 : '<' ∉ b) (h2 : '`' ∉ b) :
    runBufF f .normal b cb =
      if 20 < b.length then ([.text b], .normal, [], cb)
      else ([], .normal, b, cb) := by
  obtain ⟨g, rfl⟩ : ∃ g, f = g + 1 := ⟨f - 1, by omega⟩
  have t1 := splitOnFirst_none_of_head_notMem '<' thinkOpen b thinkOpen_head h1
  have t2 := splitOnFirst_none_of_head_notMem '<' actionOpen b actionOpen_head h1
  have t3 := splitOnFirst_none_of_head_notMem '`' fenceOpen b fenceOpen_head h2
  simp only [runBufF, t1, t2, t3]
  by_cases h20 : 20 < b.length
  · simp [h20, h1]
  · have h100 : ¬ 100 < b.length := by omega
    simp [h20, h100, h1]

/-- Invariant run over a chunk list whose characters avoid markers:
the classifier stays NORMAL and the emitted text, followed by the
residual buffer, is exactly the input consumed so far. -/
theorem feedAll_clean (cs : List Str) : ∀ b cb : Str, '<' ∉ b → '`' ∉ b →
    '<' ∉ cs.flatten → '`' ∉ cs.flatten →
    (feedAll ⟨.normal, b, cb⟩ cs).1.mode = .normal ∧
    (feedAll ⟨.normal, b, cb⟩ cs).1.codeBuffer = cb ∧
    '<' ∉ (feedAll ⟨.normal, b, cb⟩ cs).1.buffer ∧
    '`' ∉ (feedAll ⟨.normal, b, cb⟩ cs).1.buffer ∧
    emittedPayload (feedAll ⟨.normal, b, cb⟩ cs).2 ++
      (feedAll ⟨.normal, b, cb⟩ cs).1.buffer = b ++ cs.flatten := by
  induction cs with
  | nil =>
    intro b cb hb1 hb2 _ _
    simpa [feedAll, emittedPayload] using ⟨hb1, hb2⟩
  | cons c cs ih =>
    intro b cb hb1 hb2 hj1 hj2
    have hc1 : '<' ∉ c := fun h => hj1 (by simp [List.flatten, List.mem_append, h])
    have hc2 : '`' ∉ c := fun h => hj2 (by simp [List.flatten, List.mem_append, h])
    have hr1 : '<' ∉ cs.flatten := fun h => hj1 (by simp [List.flatten, List.mem_append, h])
    have hr2 : '`' ∉ cs.flatten := fun h => hj2 (by simp [List.flatten, List.mem_append, h])
    by_cases hce : c = []
    · subst hce
      have := ih b cb hb1 hb2 hr1 hr2
      simpa [feedAll, feedChunk] using this
    · have hbc1 : '<' ∉ b ++ c := by
        intro h; rcases List.mem_append.mp h with h | h
        exacts [hb1 h, hc1 h]
      have hbc2 : '`' ∉ b ++ c := by
        intro h; rcases List.mem_append.mp h with h | h
        exacts [hb2 h, hc2 h]
      have hfuel : fuelFor (b ++ c) ≠ 0 := by simp [fuelFor]
      have hrun := runBufF_normal_clean (fuelFor (b ++ c)) hfuel (b ++ c) cb hbc1 hbc2
      by_cases h20 : 20 < (b ++ c).length
      · have := ih [] cb (by simp) (by simp) hr1 hr2
        simp only [feedAll, feedChunk, hce, if_neg, hrun, h20, if_pos] at *
        refine ⟨this.1, this.2.1, this.2.2.1, this.2.2.2.1, ?_⟩
        have h5 := this.2.2.2.2
        simp [emittedPayload_append, emittedPayload] at h5 ⊢
        simp [h5, List.append_assoc]
      · have := ih (b ++ c) cb hbc1 hbc2 hr1 hr2
        simp only [feedAll, feedChunk, hce, if_neg, hrun, h20, if_neg] at *
        refine ⟨this.1, this.2.1, this.2.2.1, this.2.2.2.1, ?_⟩
        have h5 := this.2.2.2.2
        simp [emittedPayload_append, emittedPayload] at h5 ⊢
        simp [h5, List.append_assoc]

theorem classify_clean (cs : List Str)
    (h1 : '<' ∉ cs.flatten) (h2 : '`' ∉ cs.flatten) :
    emittedPayload (classify cs) = cs.flatten := by
  have := feedAll_clean cs [] [] (by simp) (by simp) h1 h2
  simp only [classify, initCState]
  rw [emittedPayload_append, emittedPayload_textIf]
  simpa using this.2.2.2.2

/-! ### Single-chunk region processing -/

theorem runBufF_normal_nil (f : Nat) (cb : Str) (hf : f ≠ 0) :
    runBufF f .normal [] cb = ([], .normal, [], cb) := by
  obtain ⟨g, rfl⟩ : ∃ g, f = g + 1 := ⟨f - 1, by omega⟩
  simp [runBufF, splitOnFirst_nil_of_ne thinkOpen (by decide),
    splitOnFirst_nil_of_ne actionOpen (by decide),
    splitOnFirst_nil_of_ne fenceOpen (by decide)]

theorem runBufF_action_nil (f : Nat) (cb : Str) (hf : f ≠ 0) :
    runBufF f .action [] cb = ([.text []], .action, [], cb) := by
  obtain ⟨g, rfl⟩ : ∃ g, f = g + 1 := ⟨f - 1, by omega⟩
  simp [runBufF, splitOnFirst_nil_of_ne fenceOpen (by decide),
    splitOnFirst_nil_of_ne actionClose (by decide), rfindIdx, maxOpt]

theorem step_normal_action (f : Nat) (b post cb : Str)
    (ht : splitOnFirst thinkOpen b = none)
    (ha : splitOnFirst actionOpen b = some ([], post)) :
    runBufF (f + 1) .normal b cb = runBufF f .action post cb := by
  simp [runBufF, ht, ha, textIf]

theorem step_normal_fence (f : Nat) (b post cb : Str)
    (ht : splitOnFirst thinkOpen b = none)
    (ha : splitOnFirst actionOpen b = none)
    (hc : splitOnFirst fenceOpen b = some ([], post)) :
    runBufF (f + 1) .normal b cb = runBufF f .checkingCode post [] := by
  simp [runBufF, ht, ha, hc, textIf]

theorem step_action_close_suppress (f : Nat) (b i q cb : Str)
    (hfen : splitOnFirst fenceOpen b = none)
    (hcl : splitOnFirst actionClose b = some (i, q))
    (hsup : pyStrip i = str "[]" ∨ pyStrip i = str "`[]`") :
    runBufF (f + 1) .action b cb = runBufF f .normal q cb := by
  have hcond : ¬ (i ≠ [] ∧ pyStrip i ≠ str "[]" ∧ pyStrip i ≠ str "`[]`") := by
    rcases hsup with h | h <;> simp [h]
  simp [runBufF, hfen, hcl, hcond]

theorem step_checking_close (f : Nat) (b cc rem cb : Str)
    (hcl : splitOnFirst ticks b = some (cc, rem)) :
    runBufF (f + 1) .checkingCode b cb =
      ((if !(isEffEmpty (cb ++ cc))
        then [Frag.codeStart, .codeDelta (cb ++ cc), .codeEnd] else []) ++
        (runBufF f .action rem []).1,
       (runBufF f .action rem []).2) := by
  simp [runBufF, hcl]

/-- Claim C3 (amended): an action region whose trimmed interior is
exactly the empty-list artifact `[]` or `` `[]` ``, when the whole
region (opening marker, interior and closing marker) arrives within a
single delta, emits no payload at all — the artifact is suppressed.
(The unamended claim quantified over every chunking; the counterexample
shows a chunking that leaks the artifact through the partial-flush
path of the ACTION state.) -/
theorem claim_C3_amended (i : Str)
    (hsup : pyStrip i = str "[]" ∨ pyStrip i = str "`[]`")
    (hthink : splitOnFirst thinkOpen (actionOpen ++ i ++ actionClose) = none)
    (hfence : splitOnFirst fenceOpen (i ++ actionClose) = none)
    (hlt : '<' ∉ i) :
    classify [actionOpen ++ i ++ actionClose] = [] := by
  set chunk := actionOpen ++ i ++ actionClose with hchunk
  have hne : chunk ≠ [] := by simp [hchunk, actionOpen, str]
  have hact : splitOnFirst actionOpen chunk = some ([], i ++ actionClose) := by
    have := splitOnFirst_marker '<' actionOpen [] (i ++ actionClose)
      actionOpen_head (by simp)
    simpa [hchunk, List.append_assoc] using this
  have hclose : splitOnFirst actionClose (i ++ actionClose) = some (i, []) := by
    have := splitOnFirst_marker '<' actionClose i [] actionClose_head hlt
    simpa using this
  obtain ⟨g, hg⟩ : ∃ g, fuelFor chunk = g + 3 := ⟨chunk.length * 2 + 5, rfl⟩
  have hrun : runBufF (fuelFor chunk) .normal chunk [] = ([], .normal, [], []) := by
    rw [hg]
    rw [step_normal_action (g + 2) chunk (i ++ actionClose) [] hthink hact]
    rw [step_action_close_suppress (g + 1) (i ++ actionClose) i [] [] hfence hclose hsup]
    exact runBufF_normal_nil (g + 1) [] (by omega)
  simp [classify, feedAll, feedChunk, hne, initCState, hrun, textIf]

/-- A fenced `python:interpreter` block delivered inside a single delta:
comment-only blocks are discarded, blocks with a real code line emit
the code region. -/
theorem codeBlock_classified (c : Str) (h1 : '<' ∉ c) (h2 : '`' ∉ c) :
    classify [fenceOpen ++ c ++ ticks] =
      if isEffEmpty c then [Frag.text []]
      else [.codeStart, .codeDelta c, .codeEnd, .text []] := by
  set chunk := fenceOpen ++ c ++ ticks with hchunk
  have hne : chunk ≠ [] := by simp [hchunk, fenceOpen, str]
  have hnolt : '<' ∉ chunk := by
    intro h
    rcases List.mem_append.mp h with h | h
    · rcases List.mem_append.mp h with h | h
      · revert h; decide
      · exact h1 h
    · revert h; decide
  have ht := splitOnFirst_none_of_head_notMem '<' thinkOpen chunk thinkOpen_head hnolt
  have ha := splitOnFirst_none_of_head_notMem '<' actionOpen chunk actionOpen_head hnolt
  have hfen : splitOnFirst fenceOpen chunk = some ([], c ++ ticks) := by
    have := splitOnFirst_marker '`' fenceOpen [] (c ++ ticks) fenceOpen_head (by simp)
    simpa [hchunk, List.append_assoc] using this
  have hticks : splitOnFirst ticks (c ++ ticks) = some (c, []) := by
    have := splitOnFirst_marker '`' ticks c [] ticks_head h2
    simpa using this
  obtain ⟨g, hg⟩ : ∃ g, fuelFor chunk = g + 3 := ⟨chunk.length * 2 + 5, rfl⟩
  have hrun : runBufF (fuelFor chunk) .normal chunk [] =
      ((if !(isEffEmpty c) then [Frag.codeStart, .codeDelta c, .codeEnd] else []) ++
        [.text []], .action, [], []) := by
    rw [hg]
    rw [step_normal_fence (g + 2) chunk (c ++ ticks) [] ht ha hfen]
    rw [step_checking_close (g + 1) (c ++ ticks) c [] [] hticks]
    rw [runBufF_action_nil (g + 1) [] (by omega)]
    simp
  simp only [classify, feedAll, feedChunk, hne, if_neg, initCState]
  simp [hrun, textIf]
  by_cases he : isEffEmpty c <;> simp [he]

/-! ### `is_effectively_empty` agrees with the line-wise description -/

theorem pyStrip_eq_nil_iff (s : Str) :
    pyStrip s = [] ↔ ∀ x ∈ s, pyIsSpace x := by
  constructor
  · intro h x hx
    simp only [pyStrip, pyDropEnd] at h
    have h' : (s.dropWhile pyIsSpace).reverse.dropWhile pyIsSpace = [] := by
      have := congrArg List.reverse h
      simpa using this
    have hall : ∀ y ∈ (s.dropWhile pyIsSpace).reverse, pyIsSpace y :=
      List.dropWhile_eq_nil_iff.mp h'
    have hall' : ∀ y ∈ s.dropWhile pyIsSpace, pyIsSpace y := by
      intro y hy; exact hall y (List.mem_reverse.mpr hy)
    have : s = s.takeWhile pyIsSpace ++ s.dropWhile pyIsSpace :=
      (List.takeWhile_append_dropWhile ..).symm
    rw [this] at hx
    rcases List.mem_append.mp hx with h | h
    · exact List.mem_takeWhile_imp h
    · exact hall' x h
  · intro h
    simp only [pyStrip, pyDropEnd]
    have h1 : s.dropWhile pyIsSpace = [] := List.dropWhile_eq_nil_iff.mpr h
    simp [h1]

theorem mem_of_mem_splitLines (s l : Str) (hl : l ∈ splitLines s) :
    ∀ x ∈ l, x ∈ s := by
  induction s generalizing l with
  | nil =>
    simp only [splitLines, List.mem_singleton] at hl
    subst hl; simp
  | cons c rest ih =>
    by_cases hc : c = '\n'
    · simp only [splitLines, hc, if_pos rfl] at hl
      rcases List.mem_cons.mp hl with h | h
      · subst h; simp
      · intro x hx; exact List.mem_cons_of_mem _ (ih l h x hx)
    · simp only [splitLines, hc, if_neg] at hl
      rcases hsl : splitLines rest with ⟨⟩ | ⟨l0, ls⟩
      · rw [hsl] at hl; simp at hl
        subst hl
        intro x hx
        rcases List.mem_cons.mp hx with h | h
        · simp [h]
        · simp at h
      · rw [hsl] at hl
        rcases List.mem_cons.mp hl with h | h
        · subst h
          intro x hx
          rcases List.mem_cons.mp hx with h | h
          · simp [h]
          · have hm : l0 ∈ splitLines rest := by rw [hsl]; exact List.mem_cons_self _ _
            exact List.mem_cons_of_mem _ (ih l0 hm x h)
        · have hm : l ∈ splitLines rest := by rw [hsl]; exact List.mem_cons_of_mem _ h
          intro x hx; exact List.mem_cons_of_mem _ (ih l hm x hx)

/-- The "effectively empty" test of `cli.py` holds exactly when every
line of the block is blank or, after stripping, starts with `#`. -/
theorem isEffEmpty_iff (s : Str) :
    isEffEmpty s = true ↔
      ∀ l ∈ splitLines s, pyStrip l = [] ∨ leadsWith (str "#") (pyStrip l) = true := by
  by_cases hs : pyStrip s = []
  · have hL : isEffEmpty s = true := by simp [isEffEmpty, hs]
    rw [hL]
    simp only [true_iff]
    intro l hl
    left
    apply (pyStrip_eq_nil_iff l).mpr
    intro x hx
    exact (pyStrip_eq_nil_iff s).mp hs x (mem_of_mem_splitLines s l hl x hx)
  · simp only [isEffEmpty, hs, ne_eq, not_false_eq_true, if_pos, Bool.not_eq_true']
    rw [show (hasRealCode s = false) ↔ ¬ (hasRealCode s = true) by simp]
    simp only [hasRealCode, List.any_eq_true, not_exists]
    constructor
    · intro h l hl
      by_cases h1 : pyStrip l = []
      · exact Or.inl h1
      · right
        by_contra hlead
        apply h l
        have hf : leadsWith (str "#") (pyStrip l) = false := by
          cases hhh : leadsWith (str "#") (pyStrip l)
          · rfl
          · exact absurd hhh hlead
        exact ⟨hl, by simp [lineIsRealCode, h1, hf]⟩
    · intro h l
      rintro ⟨hl, hreal⟩
      simp only [lineIsRealCode, Bool.and_eq_true, ne_eq, decide_eq_true_eq,
        Bool.not_eq_true'] at hreal
      rcases h l hl with h1 | h1
      · exact absurd h1 (by simpa using hreal.1)
      · rw [hreal.2] at h1; exact Bool.false_ne_true h1


/-! ### Claims C1-C4: the stream classifier -/

/-- The region-marker literals of the classifier, longest first. -/
def markers : List Str := [fenceOpen, ticks, thinkOpen, thinkClose, actionOpen, actionClose]

/-- Remove every occurrence of every region marker from a string. -/
def stripMarkers (s : Str) : Str := markers.foldl (fun acc pat => pyReplaceAll pat [] acc) s

/-- Claim C1 (counterexample): the same full response text, chunked two
ways, yields different canonical outputs even after stripping region
markers.  Fed whole, the comment-only fenced block is recognized and
discarded; chunked so that the opportunistic NORMAL-state flush (which
only guards against `<`, not backticks) emits the partial fence marker
as literal text, the block's interior survives as plain text. -/
theorem claim_C1_counterexample :
    (str "aaaaaaaaaaaaaaaaaaaaa```python") ++ (str ":interpreter\n# c\n```") =
      str "aaaaaaaaaaaaaaaaaaaaa```python:interpreter\n# c\n```" ∧
    stripMarkers (emittedPayload (classify
        [str "aaaaaaaaaaaaaaaaaaaaa```python:interpreter\n# c\n```"])) ≠
      stripMarkers (emittedPayload (classify
        [str "aaaaaaaaaaaaaaaaaaaaa```python", str ":interpreter\n# c\n```"])) := by
  decide

/-- Claim C1 (amended): chunk-boundary invariance holds for every
response text containing no marker-introducing character (`<` or
backtick): any two chunkings of the same text yield the same
concatenated payload (namely the text itself). -/
theorem claim_C1_amended (cs₁ cs₂ : List Str) (hjoin : cs₁.flatten = cs₂.flatten)
    (h1 : '<' ∉ cs₁.flatten) (h2 : '`' ∉ cs₁.flatten) :
    emittedPayload (classify cs₁) = emittedPayload (classify cs₂) := by
  rw [classify_clean cs₁ h1 h2, classify_clean cs₂ (hjoin ▸ h1) (hjoin ▸ h2), hjoin]

/-- Witness for `claim_C1_amended` at a concrete pair of chunkings. -/
theorem claim_C1_amended_witness :
    ([str "ab c", str "d"] : List Str).flatten = ([str "a", str "b cd"] : List Str).flatten ∧
    '<' ∉ ([str "ab c", str "d"] : List Str).flatten ∧
    '`' ∉ ([str "ab c", str "d"] : List Str).flatten ∧
    emittedPayload (classify [str "ab c", str "d"]) =
      emittedPayload (classify [str "a", str "b cd"]) :=
  ⟨by decide, by decide, by decide,
    claim_C1_amended [str "ab c", str "d"] [str "a", str "b cd"]
      (by decide) (by decide) (by decide)⟩

/-- Claim C2: the deltas `["Hello <thi", "nking>plan", "</thinking> world"]`
yield exactly text "Hello ", a thinking-start fragment, text "plan", a
thinking-end fragment and text " world"; the `<thinking>` marker split
across the chunk boundary is recognized intact. -/
theorem claim_C2_split_marker :
    classify [str "Hello <thi", str "nking>plan", str "</thinking> world"] =
      [.text (str "Hello "), .thinkStart, .text (str "plan"), .thinkEnd,
       .text (str " world")] := by
  decide

/-- Claim C3 (counterexample): with the chunking
`["<action>", "[]", "</action>"]` the empty-list artifact `[]` IS
emitted as a non-empty text payload (the ACTION-state fallthrough
flushes the bare interior before the closing marker arrives), refuting
the for-every-chunking suppression claim. -/
theorem claim_C3_counterexample :
    classify [str "<action>", str "[]", str "</action>"] =
      [Frag.text [], Frag.text (str "[]")] ∧
    Frag.text (str "[]") ∈ classify [str "<action>", str "[]", str "</action>"] ∧
    str "[]" ≠ [] := by decide

/-- Witness for `claim_C3_amended` at the concrete interior `` `[]` ``. -/
theorem claim_C3_amended_witness :
    classify [actionOpen ++ str "`[]`" ++ actionClose] = [] :=
  claim_C3_amended (str "`[]`") (Or.inr (by decide)) (by decide) (by decide) (by decide)

/-- Claim C4 (counterexample): a fenced block with a real code line
whose closing fence is split across two deltas never gets a code-end
fragment — the classifier stays in the EXECUTING state and streams the
orphaned backticks as code, refuting "always emits ... a code-end
fragment". -/
theorem claim_C4_counterexample :
    classify [str "```python:interpreter\nx=1\n``", str "`"] =
      [Frag.codeStart, Frag.codeDelta (str "\nx=1\n``"), Frag.codeDelta [],
       Frag.codeDelta (str "`")] ∧
    Frag.codeEnd ∉ classify [str "```python:interpreter\nx=1\n``", str "`"] ∧
    lineIsRealCode (str "x=1") = true := by decide

/-- Claim C4 (amended): for a fenced code block delivered within a
single delta (so no marker is split), a block whose every line is blank
or a `#`-comment produces no code fragments (only the empty text chunk
printed by the ACTION fallthrough), while a block with at least one
real code line produces exactly code-start, the accumulated content,
and code-end. -/
theorem claim_C4_amended (c : Str) (h1 : '<' ∉ c) (h2 : '`' ∉ c) :
    ((∀ l ∈ splitLines c, pyStrip l = [] ∨ leadsWith (str "#") (pyStrip l) = true) →
      classify [fenceOpen ++ c ++ ticks] = [Frag.text []]) ∧
    ((¬ ∀ l ∈ splitLines c, pyStrip l = [] ∨ leadsWith (str "#") (pyStrip l) = true) →
      classify [fenceOpen ++ c ++ ticks] =
        [.codeStart, .codeDelta c, .codeEnd, .text []]) := by
  have hc := codeBlock_classified c h1 h2
  constructor
  · intro h
    rw [hc, if_pos ((isEffEmpty_iff c).mpr h)]
  · intro h
    have hne : isEffEmpty c ≠ true := fun he => h ((isEffEmpty_iff c).mp he)
    rw [hc, if_neg (by simpa using hne)]

/-- Witness for `claim_C4_amended`: a block with a real line emits the
code region, a comment-only block is discarded. -/
theorem claim_C4_amended_witness :
    classify [fenceOpen ++ str "\nx=1\n" ++ ticks] =
      [Frag.codeStart, Frag.codeDelta (str "\nx=1\n"), Frag.codeEnd, Frag.text []] ∧
    classify [fenceOpen ++ str "\n# c\n" ++ ticks] = [Frag.text []] :=
  ⟨(claim_C4_amended (str "\nx=1\n") (by decide) (by decide)).2 (by decide),
   (claim_C4_amended (str "\n# c\n") (by decide) (by decide)).1 (by decide)⟩

/-! ## The agent loop of `llm_processor.py` (`LLMProcessor.process`, lines 108-194)

The model stream provider is abstracted as a function from the current
message list to the full response text of that turn (streaming deltas
are irrelevant at this level: the loop accumulates them into
`full_response` before acting).  `json.loads` is abstracted as a
success predicate on the raw argument text, and `execute_tool` as a
function from tool name and raw arguments to the textual result. -/

inductive Role
  | system
  | user
  | assistant
deriving DecidableEq, Repr

structure ChatMsg where
  role : Role
  content : Str
deriving DecidableEq, Repr

def toolOpen : Str := str "<tool>"
def toolClose : Str := str "</tool>"

/-- `re.search(r"<tool>(.*?)</tool>", full_response, re.DOTALL)`:
the interior of the first tool region, when one exists. -/
def findToolRegion (s : Str) : Option Str :=
  match splitOnFirst toolOpen s with
  | none => none
  | some (_, post) => (splitOnFirst toolClose post).map (fun p => p.1)

/-- `re.search(r"✿FUNCTION✿:\s*(.+)", tool_content)` followed by
`.strip()`: skip whitespace after the marker, take the rest of that
line, strip it. -/
def parseFuncName (tc : Str) : Option Str :=
  match splitOnFirst (str "✿FUNCTION✿:") tc with
  | none => none
  | some (_, post) =>
    let rest := post.dropWhile pyIsSpace
    let g := rest.takeWhile (fun c => c ≠ '\n')
    if g = [] then none else some (pyStrip g)

/-- `re.search(r"✿ARGS✿:\s*(.+)", tool_content, re.DOTALL)` followed by
`.strip()`: everything after the marker, stripped. -/
def parseArgsRaw (tc : Str) : Option Str :=
  match splitOnFirst (str "✿ARGS✿:") tc with
  | none => none
  | some (_, post) => if post = [] then none else some (pyStrip post)

/-- The running state of one `process` call: the message list, the
chunks yielded to `cli.py` so far, and the tool executions performed. -/
structure LoopState where
  messages : List ChatMsg
  yields : List Str
  execs : List (Str × Option Str)
deriving Repr

/-- The chunk yielded for a tool result (lines 176-179). -/
def toolResultWrap (result : Str) : Str :=
  str "\n<tool_result>\n" ++ result ++ str "\n</tool_result>\n"

/-- The user-role message fed back after a tool execution (line 173). -/
def toolOutputMsg (name result : Str) : Str :=
  str "\nTool " ++ name ++ str " Output:\n" ++ result ++ str "\n"

/-- One iteration of the `while current_turn < max_turns:` loop body
(lines 112-194), given the full response of this turn. Returns the new
state and whether the loop continues (`true` iff a tool region was
found in the response). -/
def loopStep (jsonOk : Str → Bool) (execT : Str → Option Str → Str)
    (st : LoopState) (full : Str) : LoopState × Bool :=
  let st1 : LoopState :=
    { st with
      yields := st.yields ++ [full],
      messages := st.messages ++ [⟨.assistant, full⟩] }
  match findToolRegion full with
  | none => (st1, false)
  | some tc =>
    match parseFuncName tc with
    | none =>
      -- `raise ValueError(...)` caught by the generic handler (lines 188-191)
      ({ st1 with messages := st1.messages ++
          [⟨.user, str "Error executing tool: Missing ✿FUNCTION✿: identifier in tool call"⟩] },
       true)
    | some nm =>
      match parseArgsRaw tc with
      | none =>
        -- no ✿ARGS✿ match: `tool_args = {}`, execute with no arguments
        let result := execT nm none
        ({ st1 with
            messages := st1.messages ++ [⟨.user, toolOutputMsg nm result⟩],
            yields := st1.yields ++ [toolResultWrap result],
            execs := st1.execs ++ [(nm, none)] },
         true)
      | some argsRaw =>
        if jsonOk argsRaw then
          let result := execT nm (some argsRaw)
          ({ st1 with
              messages := st1.messages ++ [⟨.user, toolOutputMsg nm result⟩],
              yields := st1.yields ++ [toolResultWrap result],
              execs := st1.execs ++ [(nm, some argsRaw)] },
           true)
        else
          -- json.JSONDecodeError handler (lines 184-187)
          ({ st1 with messages := st1.messages ++
              [⟨.user, str "Error: Invalid JSON in ✿ARGS✿."⟩] },
           true)

/-- The turn loop with the remaining turn budget as fuel; returns the
final state and the number of turns actually run. -/
def runLoop (respond : List ChatMsg → Str) (jsonOk : Str → Bool)
    (execT : Str → Option Str → Str) : Nat → LoopState → LoopState × Nat
  | 0, st => (st, 0)
  | n + 1, st =>
    let r := loopStep jsonOk execT st (respond st.messages)
    if r.2 then
      let r' := runLoop respond jsonOk execT n r.1
      (r'.1, r'.2 + 1)
    else (r.1, 1)

/-- `max_turns = 10` (line 109). -/
def maxTurns : Nat := 10

/-- One whole `process` call, starting from the assembled prompt
messages. -/
def processRun (respond : List ChatMsg → Str) (jsonOk : Str → Bool)
    (execT : Str → Option Str → Str) (initMsgs : List ChatMsg) :
    LoopState × Nat :=
  runLoop respond jsonOk execT maxTurns ⟨initMsgs, [], []⟩


/-! ### Claims C5-C6: the turn loop -/

theorem toolOpen_head : toolOpen.head? = some '<' := by decide
theorem toolClose_head : toolClose.head? = some '<' := by decide

/-- A turn whose response contains a tool region always continues the
loop, and only yields the response itself plus (possibly) one
tool-result wrapper. -/
theorem loopStep_tool (jsonOk : Str → Bool) (execT : Str → Option Str → Str)
    (st : LoopState) (full tc : Str) (htc : findToolRegion full = some tc) :
    (loopStep jsonOk execT st full).2 = true ∧
    ∀ y ∈ (loopStep jsonOk execT st full).1.yields,
      y ∈ st.yields ∨ y = full ∨ ∃ r, y = toolResultWrap r := by
  cases hfn : parseFuncName tc with
  | none =>
    have hyields : (loopStep jsonOk execT st full).1.yields = st.yields ++ [full] := by
      simp [loopStep, htc, hfn]
    refine ⟨by simp [loopStep, htc, hfn], ?_⟩
    intro y hy
    rw [hyields] at hy
    rcases List.mem_append.mp hy with hy | hy
    · exact Or.inl hy
    · exact Or.inr (Or.inl (List.mem_singleton.mp hy))
  | some nm =>
    cases har : parseArgsRaw tc with
    | none =>
      have hyields : (loopStep jsonOk execT st full).1.yields =
          st.yields ++ [full, toolResultWrap (execT nm none)] := by
        simp [loopStep, htc, hfn, har]
      refine ⟨by simp [loopStep, htc, hfn, har], ?_⟩
      intro y hy
      rw [hyields] at hy
      rcases List.mem_append.mp hy with hy | hy
      · exact Or.inl hy
      · rcases List.mem_cons.mp hy with hy | hy
        · exact Or.inr (Or.inl hy)
        · exact Or.inr (Or.inr ⟨_, List.mem_singleton.mp hy⟩)
    | some ar =>
      by_cases hok : jsonOk ar = true
      · have hyields : (loopStep jsonOk execT st full).1.yields =
            st.yields ++ [full, toolResultWrap (execT nm (some ar))] := by
          simp [loopStep, htc, hfn, har, hok]
        refine ⟨by simp [loopStep, htc, hfn, har, hok], ?_⟩
        intro y hy
        rw [hyields] at hy
        rcases List.mem_append.mp hy with hy | hy
        · exact Or.inl hy
        · rcases List.mem_cons.mp hy with hy | hy
          · exact Or.inr (Or.inl hy)
          · exact Or.inr (Or.inr ⟨_, List.mem_singleton.mp hy⟩)
      · have hyields : (loopStep jsonOk execT st full).1.yields =
            st.yields ++ [full] := by
          simp [loopStep, htc, hfn, har, hok]
        refine ⟨by simp [loopStep, htc, hfn, har, hok], ?_⟩
        intro y hy
        rw [hyields] at hy
        rcases List.mem_append.mp hy with hy | hy
        · exact Or.inl hy
        · exact Or.inr (Or.inl (List.mem_singleton.mp hy))

theorem runLoop_allTool (respond : List ChatMsg → Str) (jsonOk : Str → Bool)
    (execT : Str → Option Str → Str)
    (h : ∀ msgs, (findToolRegion (respond msgs)).isSome = true) :
    ∀ n st, (runLoop respond jsonOk execT n st).2 = n ∧
      ∀ y ∈ (runLoop respond jsonOk execT n st).1.yields,
        y ∈ st.yields ∨ (∃ msgs, y = respond msgs) ∨ ∃ r, y = toolResultWrap r := by
  intro n
  induction n with
  | zero => exact fun st => ⟨rfl, fun y hy => Or.inl hy⟩
  | succ n ih =>
    intro st
    obtain ⟨tc, htc⟩ : ∃ tc, findToolRegion (respond st.messages) = some tc := by
      cases hh : findToolRegion (respond st.messages) with
      | none => have := h st.messages; rw [hh] at this; simp at this
      | some tc => exact ⟨tc, rfl⟩
    have hstep := loopStep_tool jsonOk execT st (respond st.messages) tc htc
    simp only [runLoop, hstep.1, if_pos]
    refine ⟨by rw [(ih _).1], ?_⟩
    intro y hy
    rcases (ih _).2 y hy with hy' | hy'
    · rcases hstep.2 y hy' with h1 | h1 | h1
      · exact Or.inl h1
      · exact Or.inr (Or.inl ⟨st.messages, h1⟩)
      · exact Or.inr (Or.inr h1)
    · exact Or.inr hy'

/-! ### Claims C5-C6: turn budget and single tool call per turn -/

def c5Response : Str := str "<tool>\n✿FUNCTION✿: ping\n✿ARGS✿: \x7b\x7d\n</tool>"

def c5Run : LoopState × Nat :=
  processRun (fun _ => c5Response) (fun _ => true) (fun _ _ => str "ok") []

/-- Claim C5 (counterexample): with a model that always returns a
well-formed tool call, the loop runs exactly `maxTurns = 10` turns and
the yielded chunks are exactly the ten responses interleaved with the
ten tool-result wrappers — no limit-notice fragment is ever emitted
(the code after the `while` loop in `llm_processor.py` emits nothing). -/
theorem claim_C5_counterexample :
    maxTurns = 10 ∧ c5Run.2 = 10 ∧
    c5Run.1.yields =
      (List.replicate 10 [c5Response, toolResultWrap (str "ok")]).flatten := by
  decide

/-- Claim C5 (amended): if every model response contains a tool-call
region, the loop stops after exactly `maxTurns` iterations, and every
emitted chunk is either a model response or a tool-result wrapper — in
particular no limit-notice fragment exists. -/
theorem claim_C5_amended (respond : List ChatMsg → Str) (jsonOk : Str → Bool)
    (execT : Str → Option Str → Str) (init : List ChatMsg)
    (h : ∀ msgs, (findToolRegion (respond msgs)).isSome = true) :
    (processRun respond jsonOk execT init).2 = maxTurns ∧
    ∀ y ∈ (processRun respond jsonOk execT init).1.yields,
      (∃ msgs, y = respond msgs) ∨ ∃ r, y = toolResultWrap r := by
  have hrun := runLoop_allTool respond jsonOk execT h maxTurns ⟨init, [], []⟩
  refine ⟨hrun.1, fun y hy => ?_⟩
  rcases hrun.2 y hy with h' | h'
  · simp at h'
  · exact h'

/-- Witness for `claim_C5_amended` at a constant tool-calling model. -/
theorem claim_C5_amended_witness :
    (processRun (fun _ => c5Response) (fun _ => true) (fun _ _ => str "ok") []).2 =
      maxTurns := by
  have hT : (findToolRegion c5Response).isSome = true := by decide
  exact (claim_C5_amended (fun _ => c5Response) (fun _ => true) (fun _ _ => str "ok") []
    (fun _ => hT)).1

/-- Claim C6: per model turn, at most one tool call is executed — the
one parsed from the first `<tool>...</tool>` region of the response;
whatever follows that region (including a second contiguous tool
region, here `q`) is not executed and survives only as literal text
inside the appended assistant message. -/
theorem claim_C6_first_tool_only (p i q nm ar : Str) (st : LoopState)
    (jsonOk : Str → Bool) (execT : Str → Option Str → Str) (full : Str)
    (hfull : full = p ++ toolOpen ++ i ++ toolClose ++ q)
    (hp : '<' ∉ p) (hi : '<' ∉ i)
    (hnm : parseFuncName i = some nm) (har : parseArgsRaw i = some ar)
    (hok : jsonOk ar = true) :
    (loopStep jsonOk execT st full).1.execs = st.execs ++ [(nm, some ar)] ∧
    (loopStep jsonOk execT st full).1.messages =
      st.messages ++
        [⟨.assistant, full⟩, ⟨.user, toolOutputMsg nm (execT nm (some ar))⟩] ∧
    (loopStep jsonOk execT st full).2 = true := by
  have h1 : splitOnFirst toolOpen full = some (p, i ++ toolClose ++ q) := by
    have := splitOnFirst_marker '<' toolOpen p (i ++ (toolClose ++ q)) toolOpen_head hp
    rw [hfull]
    simpa [List.append_assoc] using this
  have h2 : splitOnFirst toolClose (i ++ toolClose ++ q) = some (i, q) := by
    have := splitOnFirst_marker '<' toolClose i q toolClose_head hi
    simpa [List.append_assoc] using this
  have htc : findToolRegion full = some i := by
    simp only [findToolRegion, h1]
    rw [h2]
    rfl
  refine ⟨?_, ?_, ?_⟩ <;> simp [loopStep, htc, hnm, har, hok]

def c6Interior : Str := str "\n✿FUNCTION✿: ping\n✿ARGS✿: 1\n"

def c6Second : Str := str "<tool>\n✿FUNCTION✿: other\n✿ARGS✿: 2\n</tool>"

/-- Witness for `claim_C6_first_tool_only`: the response carries two
tool regions; only the first (`ping`) is executed. -/
theorem claim_C6_first_tool_only_witness :
    (loopStep (fun _ => true) (fun _ _ => str "ok") ⟨[], [], []⟩
        (str "x" ++ toolOpen ++ c6Interior ++ toolClose ++ c6Second)).1.execs =
      [(str "ping", some (str "1"))] ∧
    (loopStep (fun _ => true) (fun _ _ => str "ok") ⟨[], [], []⟩
        (str "x" ++ toolOpen ++ c6Interior ++ toolClose ++ c6Second)).2 = true := by
  have h := claim_C6_first_tool_only (str "x") c6Interior c6Second (str "ping") (str "1")
    ⟨[], [], []⟩ (fun _ => true) (fun _ _ => str "ok")
    (str "x" ++ toolOpen ++ c6Interior ++ toolClose ++ c6Second) rfl
    (by decide) (by decide) (by decide) (by decide) rfl
  exact ⟨by simpa using h.1, h.2.2⟩

/-! ## The tool registry of `tools.py`

`execute_tool` (lines 146-154) looks a name up in the registry and runs
the tool, catching any exception and turning it into a textual error
result.  A tool body is modelled as a function returning
`Except Str Str`: `.error e` stands for a raised exception with message
`e`.  Note that `execute_tool` uses `get_tool`, which reads the raw
registry — the `is_visible` flag is NOT consulted at invocation time
(`get_visible_tools` is only used by `get_tools_definitions`). -/

structure ToolR (Args : Type) where
  name : Str
  description : Str
  is_visible : Bool
  run : Args → Except Str Str

/-- `ToolRegistry.get_tool` (line 66-67): plain lookup, no visibility
check. -/
def getTool {A : Type} (reg : List (ToolR A)) (n : Str) : Option (ToolR A) :=
  reg.find? (fun t => t.name == n)

/-- `execute_tool` (lines 146-154). -/
def execute_tool {A : Type} (reg : List (ToolR A)) (n : Str) (args : A) : Str :=
  match getTool reg n with
  | none => str "Tool " ++ n ++ str " not found."
  | some t =>
    match t.run args with
    | .ok v => v
    | .error e => str "Error executing tool " ++ n ++ str ": " ++ e

/-- An invisible (disabled) tool, for the C7 counterexample. -/
def secretTool : ToolR Unit :=
  ⟨str "secret_tool", str "hidden", false, fun _ => .ok (str "SECRET")⟩

/-- An always-raising tool, for the C7 witness. -/
def failTool : ToolR Unit :=
  ⟨str "boom", str "fails", true, fun _ => .error (str "kaboom")⟩

/-- Claim C7 (counterexample): an invisible (disabled) tool is still
looked up and executed by `execute_tool` — it returns the tool body's
result, not a "not found/disabled" message, because invocation never
consults the visibility flag. -/
theorem claim_C7_counterexample :
    secretTool.is_visible = false ∧
    execute_tool [secretTool] (str "secret_tool") () = str "SECRET" ∧
    execute_tool [secretTool] (str "secret_tool") () ≠
      str "Tool " ++ str "secret_tool" ++ str " not found." := by
  refine ⟨rfl, rfl, ?_⟩
  decide

/-- Claim C7 (amended): an unknown tool name yields the textual
"not found" result; an exception inside the tool body is caught at the
registry boundary and returned as a textual error message; in every
case `execute_tool` returns text and never propagates an exception.
Contrary to the claim, invisible tools are NOT rejected (see the
counterexample): visibility is never checked at invocation time. -/
theorem claim_C7_amended {A : Type} (reg : List (ToolR A)) (n : Str) (args : A) :
    (getTool reg n = none →
      execute_tool reg n args = str "Tool " ++ n ++ str " not found.") ∧
    (∀ t e, getTool reg n = some t → t.run args = .error e →
      execute_tool reg n args = str "Error executing tool " ++ n ++ str ": " ++ e) ∧
    (∀ t v, getTool reg n = some t → t.run args = .ok v →
      execute_tool reg n args = v) :=
  ⟨fun h => by simp [execute_tool, h],
   fun t e h1 h2 => by simp [execute_tool, h1, h2],
   fun t v h1 h2 => by simp [execute_tool, h1, h2]⟩

/-- Witness for `claim_C7_amended`: unknown name and raising body. -/
theorem claim_C7_amended_witness :
    execute_tool ([] : List (ToolR Unit)) (str "x") () =
      str "Tool " ++ str "x" ++ str " not found." ∧
    execute_tool [failTool] (str "boom") () =
      str "Error executing tool " ++ str "boom" ++ str ": " ++ str "kaboom" :=
  ⟨(claim_C7_amended [] (str "x") ()).1 rfl,
   (claim_C7_amended [failTool] (str "boom") ()).2.1 failTool (str "kaboom") rfl rfl⟩

/-! ### `get_tools_definitions` (lines 108-144) -/

/-- The annotation of a Python parameter, as inspected at line 118-126. -/
inductive PyAnn
  | aInt
  | aBool
  | aList
  | aDict
  | aStr
  | aOther
deriving DecidableEq, Repr

/-- Lines 118-126: map an annotation to the JSON-schema type string;
everything but `int`, `bool`, `list`, `dict` falls back to "string". -/
def schemaType : PyAnn → Str
  | .aInt => str "integer"
  | .aBool => str "boolean"
  | .aList => str "array"
  | .aDict => str "object"
  | .aStr => str "string"
  | .aOther => str "string"

/-- One declared parameter of a tool callable (`inspect.signature`). -/
structure PyParam where
  name : Str
  annot : PyAnn
  hasDefault : Bool
deriving DecidableEq, Repr

/-- A registered tool as seen by the definition exporter. -/
structure ToolSig where
  name : Str
  description : Str
  params : List PyParam
  is_visible : Bool
deriving DecidableEq, Repr

/-- `ToolRegistry.get_visible_tools` (lines 54-56). -/
def getVisibleTools (reg : List ToolSig) : List ToolSig :=
  reg.filter (fun t => t.is_visible)

/-- The exported definition of one tool (lines 135-143). -/
structure ToolDefn where
  name : Str
  description : Str
  props : List (Str × Str)
  required : List Str
deriving DecidableEq, Repr

/-- Lines 111-143: schema block built from the signature; a parameter
is `required` iff it has no default (`param.default == inspect.Parameter.empty`). -/
def defnOf (t : ToolSig) : ToolDefn :=
  { name := t.name
    description := pyStrip t.description
    props := t.params.map (fun p => (p.name, schemaType p.annot))
    required := (t.params.filter (fun p => !p.hasDefault)).map (fun p => p.name) }

/-- `get_tools_definitions` (lines 108-144). -/
def get_tools_definitions (reg : List ToolSig) : List ToolDefn :=
  (getVisibleTools reg).map defnOf

/-- Claim C8: for every registered visible tool, the exported
definition appears in the catalogue, its re-parsed parameter block
recovers exactly the declared parameter names (in order), and a
parameter appears in the `required` list iff it has no default value. -/
theorem claim_C8_roundtrip (reg : List ToolSig) (t : ToolSig)
    (hmem : t ∈ reg) (hvis : t.is_visible = true)
    (hnodup : (t.params.map PyParam.name).Nodup) :
    defnOf t ∈ get_tools_definitions reg ∧
    (defnOf t).props.map Prod.fst = t.params.map PyParam.name ∧
    ∀ p ∈ t.params, (p.name ∈ (defnOf t).required ↔ p.hasDefault = false) := by
  refine ⟨List.mem_map_of_mem _ (List.mem_filter.mpr ⟨hmem, hvis⟩), by simp [defnOf], ?_⟩
  intro p hp
  constructor
  · intro hreq
    simp only [defnOf, List.mem_map, List.mem_filter] at hreq
    obtain ⟨q, ⟨hq, hqd⟩, hqn⟩ := hreq
    have hqp : q = p := List.inj_on_of_nodup_map hnodup hq hp hqn
    subst hqp
    simpa using hqd
  · intro hnd
    simp only [defnOf, List.mem_map, List.mem_filter]
    exact ⟨p, ⟨hp, by simp [hnd]⟩, rfl⟩

/-- A concrete tool signature mirroring `edit_file`: three string
parameters, none with a default, visible. -/
def demoSig : ToolSig :=
  ⟨str "edit_file", str "Edits a file.",
   [⟨str "file_path", .aStr, false⟩, ⟨str "old_text", .aStr, false⟩,
    ⟨str "new_text", .aStr, true⟩], true⟩

/-- Witness for `claim_C8_roundtrip` at a concrete signature. -/
theorem claim_C8_roundtrip_witness :
    defnOf demoSig ∈ get_tools_definitions [demoSig] ∧
    (defnOf demoSig).props.map Prod.fst = demoSig.params.map PyParam.name ∧
    (str "new_text" ∈ (defnOf demoSig).required ↔
      (⟨str "new_text", PyAnn.aStr, true⟩ : PyParam).hasDefault = false) := by
  have h := claim_C8_roundtrip [demoSig] demoSig (by decide) rfl (by decide)
  exact ⟨h.1, h.2.1, h.2.2 ⟨str "new_text", PyAnn.aStr, true⟩ (by decide)⟩

/-! ## The tool synthesizer `create_tool` (`tools.py`, lines 336-468)

The non-streaming completion provider (`chat_completion`) is a
parameter `llm` returning `Except Str Str` (`.error` models a raised
exception); the sandbox verification of step 4 (`compile` + `exec` +
name-defined + callable checks, lines 443-457) is a parameter
`sandbox : code → name → Except Str Unit` whose `.error` carries the
exception message; `_register_tool_memory` is a parameter
`registerMem`.  The response parsing (lines 407-434) is embedded from
the regexes in the source. -/

/-- Three double quotes, the Python docstring delimiter. -/
def dq3 : Str := str "\"\"\""

/-- `re.search(r"<pat>\s*(.+)", s)` followed by `.strip()` — used for
the `Name:` and `Description:` lines. -/
def matchLineAfter (pat s : Str) : Option Str :=
  match splitOnFirst pat s with
  | none => none
  | some (_, post) =>
    let g := (post.dropWhile pyIsSpace).takeWhile (fun c => c ≠ '\n')
    if g = [] then none else some (pyStrip g)

/-- `re.search(r'"""(.*?)"""', code, re.DOTALL)` and `.strip()`. -/
def docstringOf (code : Str) : Option Str :=
  match splitOnFirst dq3 code with
  | none => none
  | some (_, post) =>
    match splitOnFirst dq3 post with
    | none => none
    | some (inner, _) => some (pyStrip inner)

/-- `re.search(r"```python\s*(.*?)\s*```", response, re.DOTALL)` and
`.strip()`. -/
def fencedCode (resp : Str) : Option Str :=
  match splitOnFirst (str "```python") resp with
  | none => none
  | some (_, post) =>
    match splitOnFirst ticks post with
    | none => none
    | some (inner, _) => some (pyStrip inner)

def isIdentStart (c : Char) : Bool := c.isAlpha || c = '_'

def isIdentCont (c : Char) : Bool := c.isAlphanum || c = '_'

/-- The leading identifier of a string (`[a-zA-Z_][a-zA-Z0-9_]*`). -/
def takeIdent : Str → Str
  | [] => []
  | c :: cs => if isIdentStart c then c :: cs.takeWhile isIdentCont else []

/-- Fuelled engine for `defNameOf`: scan successive `def` occurrences. -/
def defNameOfF : Nat → Str → Option Str
  | 0, _ => none
  | f + 1, s =>
    match splitOnFirst (str "def") s with
    | none => none
    | some (_, post) =>
      match post.head? with
      | none => none
      | some c =>
        if pyIsSpace c then
          let rest := post.dropWhile pyIsSpace
          let nm := takeIdent rest
          if nm ≠ [] ∧ ((rest.drop nm.length).dropWhile pyIsSpace).head? = some '('
          then some nm
          else defNameOfF f post
        else defNameOfF f post

/-- `re.search(r"def\s+([a-zA-Z_][a-zA-Z0-9_]*)\s*\(", code)`:
the declared function name of the generated code. -/
def defNameOf (s : Str) : Option Str := defNameOfF (s.length + 1) s

/-- Response parsing of `create_tool`, lines 407-434: prefer the full
`Name:`/`Description:`/code format (docstring overrides the
description line); otherwise fall back to the code block alone with
the name taken from the `def` line and the description from the
docstring or the requirement. -/
def parseCreateResp (requirement resp : Str) : Option (Str × Str × Str) :=
  match matchLineAfter (str "Name:") resp,
        matchLineAfter (str "Description:") resp, fencedCode resp with
  | some nm, some ds, some cd => some (nm, (docstringOf cd).getD ds, cd)
  | _, _, some cd =>
    match defNameOf cd with
    | some nm => some (nm, (docstringOf cd).getD requirement, cd)
    | none => none
  | _, _, none => none

def parseErrorText : Str := str "Failed to parse output format."

/-- The corrective user message after a parse failure (line 439). -/
def parseCorrective : Str :=
  str "Error: Failed to parse output format. Please ensure you follow the Output Format exactly."

def sandboxErr (e : Str) : Str := str "Sandbox Verification Failed: " ++ e

/-- The corrective user message after a verification failure (line 465). -/
def verifyCorrective (le : Str) : Str :=
  str "The code you generated failed verification:\n" ++ le ++
    str "\n\nPlease fix the code and output the full corrected response following the same format."

/-- The final failure text (line 468, with `max_retries = 3`). -/
def failText (le : Str) : Str :=
  str "Failed to create tool after 3 attempts. Last error: " ++ le

/-- The `for attempt in range(max_retries)` loop of `create_tool`
(lines 390-468), with the remaining attempts as fuel.  Returns the
textual result, the number of LLM calls made, and the final synthesis
conversation. -/
def createLoop (llm : List ChatMsg → Except Str Str)
    (sandbox : Str → Str → Except Str Unit)
    (registerMem : Str → Str → Str → Str) (requirement : Str) :
    Nat → List ChatMsg → Str → (Str × Nat × List ChatMsg)
  | 0, msgs, le => (failText le, 0, msgs)
  | f + 1, msgs, _lastError =>
    match llm msgs with
    | .error e => (str "Error calling Code Agent: " ++ e, 1, msgs)
    | .ok resp =>
      match parseCreateResp requirement resp with
      | none =>
        let msgs' := msgs ++ [⟨.assistant, resp⟩, ⟨.user, parseCorrective⟩]
        let r := createLoop llm sandbox registerMem requirement f msgs' parseErrorText
        (r.1, r.2.1 + 1, r.2.2)
      | some (nm, desc, cd) =>
        match sandbox cd nm with
        | .ok _ => (registerMem nm cd desc, 1, msgs)
        | .error ve =>
          let le := sandboxErr ve
          let msgs' := msgs ++ [⟨.assistant, resp⟩, ⟨.user, verifyCorrective le⟩]
          let r := createLoop llm sandbox registerMem requirement f msgs' le
          (r.1, r.2.1 + 1, r.2.2)

/-- The synthesis system prompt (abridged: the claims only depend on
its position in the conversation, not its text). -/
def createSysPrompt : Str :=
  str "You are an expert Python developer specializing in creating tools for an AI assistant."

/-- The initial synthesis conversation (lines 382-385). -/
def createInitMsgs (requirement : Str) : List ChatMsg :=
  [⟨.system, createSysPrompt⟩,
   ⟨.user, str "Create a tool for this requirement: " ++ requirement⟩]

/-- `create_tool` with `max_retries = 3` (line 387) and
`last_error = None` initially modelled as the empty string. -/
def create_tool (llm : List ChatMsg → Except Str Str)
    (sandbox : Str → Str → Except Str Unit)
    (registerMem : Str → Str → Str → Str) (requirement : Str) :
    Str × Nat × List ChatMsg :=
  createLoop llm sandbox registerMem requirement 3 (createInitMsgs requirement) []

theorem createLoop_calls_le (llm : List ChatMsg → Except Str Str)
    (sandbox : Str → Str → Except Str Unit)
    (registerMem : Str → Str → Str → Str) (requirement : Str) :
    ∀ f msgs le, (createLoop llm sandbox registerMem requirement f msgs le).2.1 ≤ f := by
  intro f
  induction f with
  | zero => intro msgs le; simp [createLoop]
  | succ f ih =>
    intro msgs le
    simp only [createLoop]
    cases llm msgs with
    | error e => simp
    | ok resp =>
      cases hp : parseCreateResp requirement resp with
      | none =>
        simp only [hp]
        simpa using Nat.succ_le_succ (ih _ _)
      | some t =>
        obtain ⟨nm, desc, cd⟩ := t
        simp only [hp]
        cases hs : sandbox cd nm with
        | ok _ => simp [hs]
        | error ve =>
          simp only [hs]
          simpa using Nat.succ_le_succ (ih _ _)

theorem createLoop_constVerifyFail (sandbox : Str → Str → Except Str Unit)
    (registerMem : Str → Str → Str → Str) (req R nm d cd ve : Str)
    (hp : parseCreateResp req R = some (nm, d, cd)) (hs : sandbox cd nm = .error ve) :
    ∀ f msgs le, createLoop (fun _ => .ok R) sandbox registerMem req f msgs le =
      (failText (if f = 0 then le else sandboxErr ve), f,
       msgs ++ (List.replicate f
         ([⟨.assistant, R⟩, ⟨.user, verifyCorrective (sandboxErr ve)⟩] :
           List ChatMsg)).flatten) := by
  intro f
  induction f with
  | zero => intro msgs le; simp [createLoop]
  | succ f ih =>
    intro msgs le
    simp only [createLoop, hp, hs]
    rw [ih]
    simp [List.replicate_succ]

theorem createLoop_constParseFail (sandbox : Str → Str → Except Str Unit)
    (registerMem : Str → Str → Str → Str) (req R : Str)
    (hp : parseCreateResp req R = none) :
    ∀ f msgs le, createLoop (fun _ => .ok R) sandbox registerMem req f msgs le =
      (failText (if f = 0 then le else parseErrorText), f,
       msgs ++ (List.replicate f
         ([⟨.assistant, R⟩, ⟨.user, parseCorrective⟩] : List ChatMsg)).flatten) := by
  intro f
  induction f with
  | zero => intro msgs le; simp [createLoop]
  | succ f ih =>
    intro msgs le
    simp only [createLoop, hp]
    rw [ih]
    simp [List.replicate_succ]

/-- Claim C9: `create_tool` makes at most 3 attempts (at most 3 LLM
calls); a parse failure or a sandbox-verification failure appends the
assistant response plus a corrective user message to the synthesis
conversation and retries; exhausting all attempts returns the single
textual failure summarizing the last error; an exception from the LLM
call itself is also returned as text — the function never raises. -/
theorem claim_C9_bounded_retry (llm : List ChatMsg → Except Str Str)
    (sandbox : Str → Str → Except Str Unit)
    (registerMem : Str → Str → Str → Str) (req : Str) :
    (create_tool llm sandbox registerMem req).2.1 ≤ 3 ∧
    (∀ E, llm = (fun _ => .error E) →
      (create_tool llm sandbox registerMem req).1 = str "Error calling Code Agent: " ++ E) ∧
    (∀ R nm d cd ve, llm = (fun _ => .ok R) →
      parseCreateResp req R = some (nm, d, cd) → sandbox cd nm = .error ve →
      (create_tool llm sandbox registerMem req).1 = failText (sandboxErr ve) ∧
      (create_tool llm sandbox registerMem req).2.1 = 3 ∧
      (create_tool llm sandbox registerMem req).2.2 =
        createInitMsgs req ++ (List.replicate 3
          ([⟨.assistant, R⟩, ⟨.user, verifyCorrective (sandboxErr ve)⟩] :
            List ChatMsg)).flatten) ∧
    (∀ R, llm = (fun _ => .ok R) → parseCreateResp req R = none →
      (create_tool llm sandbox registerMem req).1 = failText parseErrorText ∧
      (create_tool llm sandbox registerMem req).2.1 = 3) := by
  refine ⟨createLoop_calls_le llm sandbox registerMem req 3 _ _, ?_, ?_, ?_⟩
  · rintro E rfl
    simp [create_tool, createLoop]
  · rintro R nm d cd ve rfl hp hs
    rw [create_tool, createLoop_constVerifyFail sandbox registerMem req R nm d cd ve hp hs]
    simp
  · rintro R rfl hp
    rw [create_tool, createLoop_constParseFail sandbox registerMem req R hp]
    simp

def c9Resp : Str :=
  str "Name: add_two\nDescription: adds two numbers\nCode:\n```python\ndef add_two(a, b):\n    return a + b\n```"

/-- Witness for `claim_C9_bounded_retry`: a parseable response that
always fails sandbox verification exhausts the 3 attempts. -/
theorem claim_C9_bounded_retry_witness :
    (create_tool (fun _ => .ok c9Resp) (fun _ _ => .error (str "SyntaxError"))
        (fun _ _ _ => str "registered") (str "add numbers")).1 =
      failText (sandboxErr (str "SyntaxError")) ∧
    (create_tool (fun _ => .ok c9Resp) (fun _ _ => .error (str "SyntaxError"))
        (fun _ _ _ => str "registered") (str "add numbers")).2.1 = 3 :=
  have h := (claim_C9_bounded_retry (fun _ => .ok c9Resp) (fun _ _ => .error (str "SyntaxError"))
    (fun _ _ _ => str "registered") (str "add numbers")).2.2.1 c9Resp
    (str "add_two") (str "adds two numbers")
    (str "def add_two(a, b):\n    return a + b") (str "SyntaxError")
    rfl (by decide) rfl
  ⟨h.1, h.2.1⟩

/-! ## `edit_file` (`tools.py`, lines 517-576)

The file system is abstracted to the content of the one file involved:
`none` models a missing file.  `edit_file` returns the textual message
and the resulting file content; the error messages are reproduced up
to the quoting of `old_text` inside them. -/

def crlf : Str := str "\r\n"

def nlStr : Str := str "\n"

def editNotFoundMsg : Str :=
  str "Error: old_text not found in the file. Please ensure exact match including whitespace and indentation."

/-- `edit_file(file_path, old_text, new_text)` over the file content. -/
def edit_file (file_path : Str) (content : Option Str) (old_text new_text : Str) :
    Str × Option Str :=
  match content with
  | none => (str "Error: File not found: " ++ file_path, none)
  | some c =>
    let oldN := pyReplaceAll crlf nlStr old_text
    let newN := pyReplaceAll crlf nlStr new_text
    if hasSub oldN c = false then
      let oldS := pyStrip oldN
      if oldS ≠ [] ∧ hasSub oldS c = true then
        let k := pyCount oldS c
        if k = 1 then
          (str "Successfully edited " ++ file_path ++ str " (matched with stripped whitespace)",
           some (pyReplaceFirst oldS newN c))
        else if k > 1 then
          (str "Error: old_text not found exactly. A stripped version was found multiple times. Please provide more context.",
           some c)
        else (editNotFoundMsg, some c)
      else (editNotFoundMsg, some c)
    else
      let k := pyCount oldN c
      if k > 1 then
        (str "Error: old_text found multiple times. Please provide more context in old_text to make it unique.",
         some c)
      else
        (str "Successfully edited " ++ file_path, some (pyReplaceFirst oldN newN c))

theorem leadsWith_append_left (pat s t : Str) (h : leadsWith pat s = true) :
    leadsWith pat (s ++ t) = true := by
  induction pat generalizing s with
  | nil => rfl
  | cons a as ih =>
    cases s with
    | nil => simp [leadsWith] at h
    | cons b bs =>
      simp only [leadsWith, Bool.and_eq_true, decide_eq_true_eq] at h
      simp [leadsWith, h.1, ih bs h.2]

/-- Claim C10: `edit_file` is atomic on failure.  If the
newline-normalized `old_text` does not occur in the file and its
stripped variant does not occur exactly once, or if it occurs more
than once, the result is a textual error and the content is unchanged;
when it succeeds (directly or through the stripped fallback), the
content is the file with exactly the first occurrence replaced. -/
theorem claim_C10_atomic_on_failure (fp c old new : Str) (oldN newN : Str)
    (hoN : oldN = pyReplaceAll crlf nlStr old)
    (hnN : newN = pyReplaceAll crlf nlStr new) :
    (hasSub oldN c = false ∧
      ¬ (pyStrip oldN ≠ [] ∧ hasSub (pyStrip oldN) c = true ∧ pyCount (pyStrip oldN) c = 1) →
        leadsWith (str "Error") (edit_file fp (some c) old new).1 = true ∧
        (edit_file fp (some c) old new).2 = some c) ∧
    (hasSub oldN c = true ∧ pyCount oldN c > 1 →
        leadsWith (str "Error") (edit_file fp (some c) old new).1 = true ∧
        (edit_file fp (some c) old new).2 = some c) ∧
    (hasSub oldN c = true ∧ ¬ pyCount oldN c > 1 →
        leadsWith (str "Successfully") (edit_file fp (some c) old new).1 = true ∧
        (edit_file fp (some c) old new).2 = some (pyReplaceFirst oldN newN c)) ∧
    (hasSub oldN c = false ∧ pyStrip oldN ≠ [] ∧ hasSub (pyStrip oldN) c = true ∧
        pyCount (pyStrip oldN) c = 1 →
        leadsWith (str "Successfully") (edit_file fp (some c) old new).1 = true ∧
        (edit_file fp (some c) old new).2 = some (pyReplaceFirst (pyStrip oldN) newN c)) := by
  subst hoN hnN
  refine ⟨?_, ?_, ?_, ?_⟩
  · rintro ⟨h1, h2⟩
    by_cases hstr : pyStrip (pyReplaceAll crlf nlStr old) ≠ [] ∧
        hasSub (pyStrip (pyReplaceAll crlf nlStr old)) c = true
    · have hk : pyCount (pyStrip (pyReplaceAll crlf nlStr old)) c ≠ 1 := by
        intro hk1; exact h2 ⟨hstr.1, hstr.2, hk1⟩
      by_cases hk2 : pyCount (pyStrip (pyReplaceAll crlf nlStr old)) c > 1
      · simp [edit_file, h1, hstr, hk, hk2]
        decide
      · simp [edit_file, h1, hstr, hk, hk2, editNotFoundMsg]
        decide
    · simp [edit_file, h1, hstr, editNotFoundMsg]
      decide
  · rintro ⟨h1, h2⟩
    simp [edit_file, h1, h2]
    decide
  · rintro ⟨h1, h2⟩
    simp [edit_file, h1, h2]
    exact leadsWith_append_left _ _ _ (by decide)
  · rintro ⟨h1, h2, h3, h4⟩
    simp [edit_file, h1, h2, h3, h4]
    exact leadsWith_append_left _ _ _ (by decide)

/-- Witness for `claim_C10_atomic_on_failure`: a unique match is
replaced once; a doubly-occurring `old_text` leaves the file
unchanged with an error. -/
theorem claim_C10_atomic_on_failure_witness :
    leadsWith (str "Successfully")
      (edit_file (str "a.txt") (some (str "hello world hello")) (str "world") (str "there")).1 = true ∧
    (edit_file (str "a.txt") (some (str "hello world hello")) (str "world") (str "there")).2 =
      some (str "hello there hello") ∧
    leadsWith (str "Error")
      (edit_file (str "a.txt") (some (str "hello world hello")) (str "hello") (str "bye")).1 = true ∧
    (edit_file (str "a.txt") (some (str "hello world hello")) (str "hello") (str "bye")).2 =
      some (str "hello world hello") := by
  have hs := (claim_C10_atomic_on_failure (str "a.txt") (str "hello world hello") (str "world") (str "there")
    (pyReplaceAll crlf nlStr (str "world")) (pyReplaceAll crlf nlStr (str "there"))
    rfl rfl).2.2.1 ⟨by decide, by decide⟩
  have he := (claim_C10_atomic_on_failure (str "a.txt") (str "hello world hello") (str "hello") (str "bye")
    (pyReplaceAll crlf nlStr (str "hello")) (pyReplaceAll crlf nlStr (str "bye"))
    rfl rfl).2.1 ⟨by decide, by decide⟩
  refine ⟨hs.1, ?_, he.1, he.2⟩
  rw [hs.2]
  decide
